import Mathlib

/-!
Verification of the koubou-system task-dispatch core against its
natural-language specification.

The definitions below are a shallow embedding of the Python sources:

* `.koubou/scripts/common/database.py` (`DatabaseManager`): the durable
  task/worker store, modelled as explicit state passing over `DBState`
  (lists of rows in insertion order, mirroring SQLite rowid order).
  Timestamps are `Nat`; SQL `datetime` comparisons become arithmetic on
  these.  The retry-on-lock loops of the source are invisible in a
  sequential embedding and are not modelled; each operation is one
  transaction.
* `.koubou/scripts/workers/worker_pool_manager.py` (`scale_workers`),
  `.koubou/scripts/workers/enhanced_pool_manager.py` (`TaskRouter`,
  `EnhancedWorkerPoolManager.assign_task_to_worker`),
* `.koubou/scripts/mcp_server.py` (`delegate_task`),
  `.koubou/scripts/workers/local_worker.py` (`process_task`),
* `.koubou/scripts/common/task_result_manager.py` (type inference,
  multi-file extraction, quality score).

Python truthiness of strings (`if s:` is false for `""`) and `dict.get`
defaults are modelled explicitly where they matter.
-/

namespace Koubou

/-- One row of the `task_master` table (see `database.py` schema). -/
structure DBTask where
  task_id : String
  content : String
  status : String
  priority : Int
  result : Option String
  created_by : String
  assigned_to : Option String
  created_at : Nat
  updated_at : Nat
deriving DecidableEq, Repr

/-- One row of the `workers` table (see `database.py` schema). -/
structure DBWorker where
  worker_id : String
  status : String
  current_task : Option String
  tasks_completed : Nat
  tasks_failed : Nat
  last_heartbeat : Nat
deriving DecidableEq, Repr

/-- The durable store: the two tables, rows in insertion (rowid) order. -/
structure DBState where
  tasks : List DBTask
  workers : List DBWorker
deriving DecidableEq, Repr

/-! ### DatabaseManager.complete_task_with_stats (database.py lines 750-818)

The task UPDATE runs `WHERE task_id = ? AND assigned_to = ?`; there is no
condition on the task's current status.  `rowcount = 0` rolls back and
returns `False`; otherwise the matching worker row's counter is bumped and
the worker is reset to idle. -/

/-- The WHERE clause of the task update in `complete_task_with_stats`. -/
def completeMatch (tid wid : String) (t : DBTask) : Bool :=
  t.task_id == tid && t.assigned_to == some wid

/-- Worker-row update of `complete_task_with_stats` (both branches reset
the worker to idle and refresh the heartbeat). -/
def completeWorkerUpd (wid : String) (success : Bool) (now : Nat) (w : DBWorker) : DBWorker :=
  if w.worker_id == wid then
    if success then
      { w with tasks_completed := w.tasks_completed + 1, status := "idle",
               current_task := none, last_heartbeat := now }
    else
      { w with tasks_failed := w.tasks_failed + 1, status := "idle",
               current_task := none, last_heartbeat := now }
  else w

/-- `DatabaseManager.complete_task_with_stats`. -/
def complete_task_with_stats (tid wid result : String) (success : Bool)
    (now : Nat) (st : DBState) : Bool × DBState :=
  if st.tasks.any (completeMatch tid wid) then
    let status := if success then "completed" else "failed"
    let tasks := st.tasks.map fun t =>
      if completeMatch tid wid t then
        { t with status := status, result := some result, updated_at := now }
      else t
    let workers := st.workers.map (completeWorkerUpd wid success now)
    (true, ⟨tasks, workers⟩)
  else (false, st)

/-! ### WorkerPoolManager.scale_workers (worker_pool_manager.py lines 171-210)

`get_active_task_count` returns `in_progress + processing`.  The function
first returns when the active-task cap is reached, then scales up or down.
Modelled as a pure function from the observed counts to the actions taken
this tick: the number of workers spawned and the ids shut down. -/

/-- Pool configuration (`min_workers`, `max_workers`, `max_active_tasks`). -/
structure PoolConfig where
  min_workers : Nat
  max_workers : Nat
  max_active_tasks : Nat
deriving DecidableEq, Repr

/-- `WorkerPoolManager.scale_workers`; `inProgress`/`processing` are the
task counts read at the start of the tick, `idleWorkers` the id list from
`get_idle_workers`.  Result: (workers spawned, worker ids shut down). -/
def scale_workers (cfg : PoolConfig) (pending inProgress processing activeWorkers : Nat)
    (idleWorkers : List String) : Nat × List String :=
  let activeTasks := inProgress + processing
  if cfg.max_active_tasks ≤ activeTasks then (0, [])
  else if 0 < pending ∧ activeWorkers = 0 then (1, [])
  else if 0 < pending ∧ activeTasks < cfg.max_active_tasks ∧ activeWorkers < cfg.max_workers then
    let availableSlots := cfg.max_active_tasks - activeTasks
    let workersNeeded := min pending (min availableSlots (cfg.max_workers - activeWorkers))
    (workersNeeded, [])
  else if pending = 0 ∧ cfg.min_workers < activeWorkers then
    let workersToRemove := activeWorkers - cfg.min_workers
    (0, idleWorkers.take workersToRemove)
  else (0, [])

/-! ### TaskResultManager._assess_quality (task_result_manager.py lines 407-431) -/

/-- Python `needle in haystack` on lists of characters: prefix test. -/
def startsL : List Char → List Char → Bool
  | [], _ => true
  | _ :: _, [] => false
  | a :: as, b :: bs => a == b && startsL as bs

/-- Python `needle in haystack` on lists of characters: scan. -/
def subList (n : List Char) : List Char → Bool
  | [] => n.isEmpty
  | c :: cs => startsL n (c :: cs) || subList n cs

/-- Python substring containment `needle in hay`. -/
def containsSub (needle hay : String) : Bool := subList needle.data hay.data

/-- The Python docstring marker of three single quotes. -/
def tripleQuote : String := String.mk [Char.ofNat 39, Char.ofNat 39, Char.ofNat 39]

/-- `TaskResultManager._assess_quality`: base 70, non-negative bonuses,
capped at 100. -/
def assess_quality (result_text task_type : String) : Nat :=
  let s0 : Nat := 70
  let s1 := if 50 < result_text.length then s0 + 10 else s0
  let s2 := if 200 < result_text.length then s1 + 5 else s1
  let s3 :=
    if task_type = "code_generation" then
      let a := if containsSub "def " result_text || containsSub "class " result_text
               then s2 + 10 else s2
      if containsSub "\"\"\"" result_text || containsSub tripleQuote result_text
      then a + 5 else a
    else if task_type = "data_analysis" then
      let a := if containsSub "##" result_text then s2 + 10 else s2
      if containsSub "結論" result_text || containsSub "推奨" result_text ||
         containsSub "分析" result_text
      then a + 5 else a
    else s2
  min s3 100

/-! ### DatabaseManager.cleanup_dead_workers (database.py lines 584-623)

Step (a): tasks `in_progress` assigned to a worker whose heartbeat is at
least `timeout` seconds old are reset to pending/unassigned; step (b):
those worker rows are deleted; the DELETE rowcount is returned.
`last_heartbeat <= datetime(now, -timeout seconds)` becomes
`last_heartbeat + timeout ≤ now`. -/

/-- The dead-worker test of `cleanup_dead_workers`. -/
def isDead (timeout now : Nat) (w : DBWorker) : Bool :=
  decide (w.last_heartbeat + timeout ≤ now)

/-- The WHERE clause of the task-release UPDATE of `cleanup_dead_workers`:
`assigned_to IN deadIds AND status = 'in_progress'`. -/
def taskOrphanMatch (deadIds : List String) (t : DBTask) : Bool :=
  (match t.assigned_to with
   | some a => deadIds.contains a
   | none => false) && t.status == "in_progress"

/-- `DatabaseManager.cleanup_dead_workers`. -/
def cleanup_dead_workers (timeout now : Nat) (st : DBState) : Nat × DBState :=
  let dead := st.workers.filter (isDead timeout now)
  let deadIds := dead.map DBWorker.worker_id
  let tasks := st.tasks.map fun t =>
    if taskOrphanMatch deadIds t then { t with status := "pending", assigned_to := none }
    else t
  let workers := st.workers.filter fun w => !(isDead timeout now w)
  (dead.length, ⟨tasks, workers⟩)

/-! ### Task assignment

`DatabaseManager.assign_task_to_worker` (database.py lines 323-346) is a
conditional update guarded by `AND status = 'pending'`.  The PoolManager
dispatch step `EnhancedWorkerPoolManager.assign_task_to_worker`
(enhanced_pool_manager.py lines 330-364) does NOT call it: it runs its own
`UPDATE task_master SET status = 'in_progress', assigned_to = ? WHERE
task_id = ?` without any status condition, together with an unconditional
worker-row update. -/

/-- `DatabaseManager.assign_task_to_worker`. -/
def db_assign_task_to_worker (tid wid : String) (now : Nat) (st : DBState) :
    Bool × DBState :=
  let hit := st.tasks.any fun t => t.task_id == tid && t.status == "pending"
  (hit,
   { st with
     tasks := st.tasks.map fun t =>
       if t.task_id == tid && t.status == "pending" then
         { t with status := "in_progress", assigned_to := some wid, updated_at := now }
       else t })

/-- The database writes of `EnhancedWorkerPoolManager.assign_task_to_worker`
once the router has chosen `wid`: worker row set busy, task row moved to
`in_progress`/`assigned_to = wid` with no condition on its prior status. -/
def pool_assign_task_step (tid wid : String) (st : DBState) : DBState :=
  { tasks := st.tasks.map fun t =>
      if t.task_id == tid then { t with status := "in_progress", assigned_to := some wid }
      else t,
    workers := st.workers.map fun w =>
      if w.worker_id == wid then { w with status := "busy", current_task := some tid }
      else w }

/-! ### DatabaseManager.acquire_next_task (database.py lines 673-748)

`SELECT ... WHERE status = 'pending' ORDER BY priority DESC, created_at
ASC LIMIT 1`, then a conditional claim UPDATE and the caller's worker-row
update, in one immediate transaction.  In the sequential embedding the
conditional re-check always succeeds, so the retry branch of the source is
unreachable and not modelled.  Row order in `DBState.tasks` is insertion
order, and a `foldl` keeping the incumbent on ties realises the stable
tie-break. -/

/-- Strict comparison realising `ORDER BY priority DESC, created_at ASC`:
`betterTask b t` holds when `t` must come strictly before `b`. -/
def betterTask (b t : DBTask) : Bool :=
  decide (b.priority < t.priority) ||
  (b.priority == t.priority && decide (t.created_at < b.created_at))

/-- Pick the first row of a list under a strict preference `better`
(keeping the incumbent on ties, i.e. the earliest maximal element). -/
def pickArg {α : Type} (better : α → α → Bool) (l : List α) : Option α :=
  l.foldl (fun acc w =>
    match acc with
    | none => some w
    | some b => if better b w then some w else some b) none

/-- `status = 'pending'` test. -/
def isPending (t : DBTask) : Bool := t.status == "pending"

/-- The four columns `acquire_next_task` selects and returns. -/
structure TaskView where
  task_id : String
  content : String
  priority : Int
  created_at : Nat
deriving DecidableEq, Repr

/-- `DatabaseManager.acquire_next_task`. -/
def acquire_next_task (wid : String) (now : Nat) (st : DBState) :
    Option TaskView × DBState :=
  match pickArg betterTask (st.tasks.filter isPending) with
  | none => (none, st)
  | some t =>
    let tasks := st.tasks.map fun u =>
      if u.task_id == t.task_id && isPending u then
        { u with status := "in_progress", assigned_to := some wid, updated_at := now }
      else u
    let workers := st.workers.map fun w =>
      if w.worker_id == wid then
        { w with status := "busy", current_task := some t.task_id, last_heartbeat := now }
      else w
    (some ⟨t.task_id, t.content, t.priority, t.created_at⟩, ⟨tasks, workers⟩)

/-! ### TaskRouter (enhanced_pool_manager.py lines 28-150)

Worker dicts come from `get_available_workers`, which always provides the
keys `worker_id, status, location, performance_factor, tasks_completed,
tasks_failed`; `location` may be NULL (`none` here), and
`w.get('location', 'local') == 'local'` is then false, so only
`location = some "local"` counts as local.  `performance_factor` is a
float in the source, modelled as `ℚ` (the score arithmetic is exact on the
values involved).  Python truthiness is modelled explicitly: a returned
worker id is only `return`ed by `if selected:` when it is non-empty, and
reading the loop variable `candidates` before any assignment (possible in
the `fallback_to_local` branch when every matching rule so far listed no
preferred worker classes) raises `UnboundLocalError` — encoded as the
`none` outcome of `route_task`. -/

/-- A worker row as seen by the router. -/
structure RWorker where
  worker_id : String
  status : String
  location : Option String
  performance_factor : ℚ
  tasks_completed : Nat
  tasks_failed : Nat
deriving DecidableEq, Repr

/-- The task fields the router reads (`dict.get` on missing keys gives
`none`; `priority` defaults to 5). -/
structure RTask where
  task_id : String
  priority : Option Int
  preferred_worker : Option String
deriving DecidableEq, Repr

/-- One entry of the routing policy's `rules` list. -/
structure RoutingRule where
  priority_lo : Int
  priority_hi : Int
  preferred_workers : List String
  fallback_to_local : Bool
deriving DecidableEq, Repr

/-- The routing policy (only `rules` matters to `route_task`). -/
structure RoutingPolicy where
  rules : List RoutingRule
deriving DecidableEq, Repr

/-- `w.get('location', 'local') == 'local'`. -/
def isLocalW (w : RWorker) : Bool := w.location == some "local"

/-- `TaskRouter._match_worker_type`. -/
def matchWorkerType (wt : String) (w : RWorker) : Bool :=
  if wt = "local" then isLocalW w
  else if wt = "remote" then !(isLocalW w)
  else true

/-- `TaskRouter._calculate_worker_score` (the `task` argument is unused by
the source). -/
def calculate_worker_score (w : RWorker) : ℚ :=
  let s1 : ℚ := 0 + w.performance_factor * 100
  let s2 : ℚ :=
    if w.status = "idle" then s1 + 50
    else if w.status = "busy" then s1 - 30 else s1
  let total := w.tasks_completed + w.tasks_failed
  if 0 < total then s2 + ((w.tasks_completed : ℚ) / (total : ℚ)) * 30 else s2

/-- `scores.sort(key=score, reverse=True)` is stable, so `scores[0]` is the
earliest worker of maximal score: the keep-incumbent argmax. -/
def betterScore (b w : RWorker) : Bool :=
  decide (calculate_worker_score b < calculate_worker_score w)

/-- `TaskRouter._select_best_worker`. -/
def select_best_worker (cands : List RWorker) : Option String :=
  (pickArg betterScore cands).map RWorker.worker_id

/-- The inner `for worker_type in preferred_types` loop of `route_task`:
either returns a (truthy) worker id, or falls through with the last value
bound to the Python local `candidates`. -/
def innerRuleLoop (ws : List RWorker) :
    List String → Option (List RWorker) → Sum String (Option (List RWorker))
  | [], cand => Sum.inr cand
  | wt :: rest, _cand =>
    let cs := ws.filter (matchWorkerType wt)
    if cs.isEmpty then innerRuleLoop ws rest (some cs)
    else
      match select_best_worker cs with
      | some id => if id ≠ "" then Sum.inl id else innerRuleLoop ws rest (some cs)
      | none => innerRuleLoop ws rest (some cs)

/-- The outer `for rule in self.rules` loop of `route_task`.  Result:
`none` is an `UnboundLocalError` crash, `some (some id)` a returned id,
`some none` falling through to the default choice. -/
def rulesLoop (ws locals : List RWorker) (pri : Int) :
    List RoutingRule → Option (List RWorker) → Option (Option String)
  | [], _ => some none
  | r :: rest, cand =>
    if r.priority_lo ≤ pri ∧ pri ≤ r.priority_hi then
      match innerRuleLoop ws r.preferred_workers cand with
      | Sum.inl id => some (some id)
      | Sum.inr cand2 =>
        if r.fallback_to_local then
          match cand2 with
          | none => none
          | some cs =>
            if cs.isEmpty then
              if locals.isEmpty then rulesLoop ws locals pri rest cand2
              else some (select_best_worker locals)
            else rulesLoop ws locals pri rest cand2
        else rulesLoop ws locals pri rest cand2
    else rulesLoop ws locals pri rest cand

/-- The `preferred_worker` block at the top of `route_task`: a truthy
(non-empty) preferred id that is present in `available_workers` is
returned at once. -/
def routePreferred (task : RTask) (ws : List RWorker) : Option String :=
  match task.preferred_worker with
  | some p => if p ≠ "" ∧ ws.any (fun w => w.worker_id == p) then some p else none
  | none => none

/-- The local-busy fast path of `route_task`: when no local worker is idle
and remote workers exist, the best remote is returned if its id is
truthy. -/
def routeFast (ws : List RWorker) : Option String :=
  let locals := ws.filter isLocalW
  let remotes := ws.filter fun w => !(isLocalW w)
  let localIdle := locals.filter fun w => w.status == "idle"
  if localIdle.isEmpty ∧ ¬remotes.isEmpty then
    match select_best_worker remotes with
    | some id => if id ≠ "" then some id else none
    | none => none
  else none

/-- `TaskRouter.route_task`.  `some none` models a returned `None`,
`some (some id)` a returned worker id, `none` an `UnboundLocalError`. -/
def route_task (pol : RoutingPolicy) (task : RTask) (ws : List RWorker) :
    Option (Option String) :=
  match ws with
  | [] => some none
  | w0 :: _ =>
    match routePreferred task ws with
    | some p => some (some p)
    | none =>
      match routeFast ws with
      | some id => some (some id)
      | none =>
        match rulesLoop ws (ws.filter isLocalW) (task.priority.getD 5) pol.rules none with
        | none => none
        | some (some id) => some (some id)
        | some none => some (some w0.worker_id)

/-! ### MasterAPI delegate (mcp_server.py lines 58-123) and the worker
execution path (local_worker.py `process_task`, lines 225-287)

`delegate_task` reads the prompt as `data.get('content',
data.get('prompt', ''))` and rejects an empty one with HTTP 400
`{"error": "No prompt provided"}` before any task is created.  The JSON
serialisations of the content and result blobs, and the Gemini CLI
subprocess, are abstract parameters (`encC`, `encR`, `ex`): the claims do
not depend on the encodings, only on when the Executor runs.
`process_task` validates paths via `config.validate_file_operation`
(abstracted as `validate`, returning an error message on failure), then
rejects an empty prompt with `{'success': False, 'output': '', 'error':
'Prompt is empty'}` before invoking the Executor; the returned `Bool`
records whether the Executor ran. -/

/-- An Executor result blob `{success, output, error?}`. -/
structure ExecResult where
  success : Bool
  output : String
  error : Option String
deriving DecidableEq, Repr

/-- A `POST /task/delegate` request body (absent keys are `none`). -/
structure DelegateRequest where
  rtype : String
  content : Option String
  prompt : Option String
  files : List String
  output_file : Option String
  priority : Int
  sync : Bool
deriving DecidableEq, Repr

/-- The responses `delegate_task` can produce. -/
inductive DelegateResponse where
  | badRequest (error : String)
  | serverError (error : String)
  | completedR (task_id : String) (result : ExecResult)
  | delegated (task_id : String)
deriving DecidableEq, Repr

/-- `data.get('content', data.get('prompt', ''))`. -/
def effectivePrompt (req : DelegateRequest) : String :=
  req.content.getD (req.prompt.getD "")

/-- `DatabaseManager.create_task`: INSERT, false on duplicate key; the new
row takes the table defaults `status = 'pending'`, `assigned_to = NULL`. -/
def create_task (tid content : String) (priority : Int) (created_by : String)
    (now : Nat) (st : DBState) : Bool × DBState :=
  if st.tasks.any (fun t => t.task_id == tid) then (false, st)
  else
    (true,
     { st with tasks := st.tasks ++
        [{ task_id := tid, content := content, status := "pending",
           priority := priority, result := none, created_by := created_by,
           assigned_to := none, created_at := now, updated_at := now }] })

/-- `DatabaseManager.update_task_status`: unconditional status set (the
result column is only written when a result is passed); true iff a row
matched. -/
def update_task_status (tid status : String) (result : Option String)
    (now : Nat) (st : DBState) : Bool × DBState :=
  ((st.tasks.any fun t => t.task_id == tid),
   { st with tasks := st.tasks.map fun t =>
      if t.task_id == tid then
        { t with status := status,
                 result := (match result with | some r => some r | none => t.result),
                 updated_at := now }
      else t })

/-- `execute_task_sync` of mcp_server.py: its own empty-prompt guard, then
the Gemini CLI subprocess (the abstract `ex`). -/
def execute_task_sync (ex : String → ExecResult) (prompt : String) : ExecResult :=
  if prompt = "" then { success := false, output := "", error := some "No prompt provided" }
  else ex prompt

/-- `delegate_task` of mcp_server.py.  `encC` and `encR` stand for
`json.dumps` on the content and result blobs; `tid` for the generated
timestamp task id. -/
def delegate_task (ex : String → ExecResult) (encC : DelegateRequest → String)
    (encR : ExecResult → String) (tid : String) (now : Nat)
    (req : DelegateRequest) (st : DBState) : DelegateResponse × DBState :=
  let prompt := effectivePrompt req
  if prompt = "" then (DelegateResponse.badRequest "No prompt provided", st)
  else
    match create_task tid (encC req) req.priority "claude_code" now st with
    | (false, st1) => (DelegateResponse.serverError "Failed to create task", st1)
    | (true, st1) =>
      if req.sync then
        let result := execute_task_sync ex prompt
        let st2 := (update_task_status tid "completed" (some (encR result)) now st1).2
        (DelegateResponse.completedR tid result, st2)
      else (DelegateResponse.delegated tid, st1)

/-- The content blob a worker receives: `{type, prompt, files, output_file}`. -/
structure TaskContent where
  ttype : String
  prompt : String
  files : List String
  output_file : Option String
deriving DecidableEq, Repr

/-- The security-rejection result of `process_task`. -/
def validationError (m : String) : ExecResult :=
  { success := false, output := "", error := some ("Security validation failed: " ++ m) }

/-- `GeminiLocalWorker.process_task`, up to the Executor call: path
validation, the empty-prompt guard, then `run_gemini_task_with_files`
(the abstract `ex`).  The second component records whether the Executor
was invoked. -/
def process_task (ex : String → List String → Option String → ExecResult)
    (validate : String → Option String) (tc : TaskContent) : ExecResult × Bool :=
  match tc.files.findSome? validate with
  | some m => (validationError m, false)
  | none =>
    match (if tc.output_file.getD "" = "" then none else validate (tc.output_file.getD "")) with
    | some m => (validationError m, false)
    | none =>
      if tc.prompt = "" then
        ({ success := false, output := "", error := some "Prompt is empty" }, false)
      else (ex tc.prompt tc.files tc.output_file, true)

/-! ### TaskResultManager deliverable extraction
(task_result_manager.py lines 126-272)

`_save_formatted_result` in the `code_generation` branch splits the output
with `re.split` on three patterns in turn; each detected section is
written as a file after `.strip()` and removal of fenced-code markers; if
any file was written a `README.md` listing them is added, otherwise a
single fallback file is written.  `_infer_task_type` chooses the branch
from keyword lists over the lowercased prompt and output.

The regular expressions are embedded as explicit matchers over `List
Char`.  The character classes and backtracking of the three patterns are
worked out once: the group `[^\s-]+\.\w+` (resp. `[^\s=]+\.\w+`) can only
match the whole maximal run of its leading class, whose last `.` must be
followed by a non-empty word-character suffix (`groupOk`); `\s*` never
backtracks against the disjoint classes around it.  Python `\w`/`\s` and
`str.lower` are modelled on ASCII (the inputs of interest are ASCII plus
Japanese text, which `lower` leaves unchanged).  The fallback branches of
`_save_formatted_result` write one file whose content is a fixed header
plus the output; the claims only concern which files are written, so only
the file names are recorded for those branches. -/

/-- Python regex `\s` on ASCII. -/
def pySpace (c : Char) : Bool :=
  c == ' ' || c == '\t' || c == '\n' || c == '\r' || c == '\x0b' || c == '\x0c'

/-- Python regex `\w` on ASCII. -/
def pyWord (c : Char) : Bool := c.isAlpha || c.isDigit || c == '_'

/-- Python `str.strip()`. -/
def pyStrip (l : List Char) : List Char :=
  ((l.dropWhile pySpace).reverse.dropWhile pySpace).reverse

/-- The filename group `[^\s-]+\.\w+` (or `[^\s=]+\.\w+`) consumes a whole
maximal run iff the run's maximal word-character suffix is non-empty and
preceded by a `.` that is not the first character. -/
def groupOk (run : List Char) : Bool :=
  let rev := run.reverse
  !(rev.takeWhile pyWord).isEmpty &&
    (match rev.dropWhile pyWord with
     | '.' :: a => !a.isEmpty
     | _ => false)

/-- Match `---\s*([^\s-]+\.\w+)\s*---` at the head of the list; on success
return the captured filename and the remainder. -/
def matchMarker1 (l : List Char) : Option (List Char × List Char) :=
  if l.take 3 = ['-', '-', '-'] then
    let cs1 := (l.drop 3).dropWhile pySpace
    let run := cs1.takeWhile fun c => !pySpace c && c != '-'
    if run.isEmpty || !groupOk run then none
    else
      let cs3 := (cs1.drop run.length).dropWhile pySpace
      if cs3.take 3 = ['-', '-', '-'] then some (run, cs3.drop 3) else none
  else none

/-- Match `//\s*=+\s*([^\s=]+\.\w+)\s*=+` at the head of the list. -/
def matchMarker2 (l : List Char) : Option (List Char × List Char) :=
  if l.take 2 = ['/', '/'] then
    let cs0 := (l.drop 2).dropWhile pySpace
    let eqs := cs0.takeWhile fun c => c == '='
    if eqs.isEmpty then none
    else
      let cs1 := (cs0.drop eqs.length).dropWhile pySpace
      let run := cs1.takeWhile fun c => !pySpace c && c != '='
      if run.isEmpty || !groupOk run then none
      else
        let cs3 := (cs1.drop run.length).dropWhile pySpace
        let eqs2 := cs3.takeWhile fun c => c == '='
        if eqs2.isEmpty then none else some (run, cs3.drop eqs2.length)
  else none

/-- Match `/\*\s*=+\s*([^\s=]+\.\w+)\s*=+\s*\*/` at the head of the
list. -/
def matchMarker3 (l : List Char) : Option (List Char × List Char) :=
  if l.take 2 = ['/', '*'] then
    let cs0 := (l.drop 2).dropWhile pySpace
    let eqs := cs0.takeWhile fun c => c == '='
    if eqs.isEmpty then none
    else
      let cs1 := (cs0.drop eqs.length).dropWhile pySpace
      let run := cs1.takeWhile fun c => !pySpace c && c != '='
      if run.isEmpty || !groupOk run then none
      else
        let cs3 := (cs1.drop run.length).dropWhile pySpace
        let eqs2 := cs3.takeWhile fun c => c == '='
        if eqs2.isEmpty then none
        else
          let cs4 := (cs3.drop eqs2.length).dropWhile pySpace
          if cs4.take 2 = ['*', '/'] then some (run, cs4.drop 2) else none
  else none

/-- The left-to-right scan of `re.split` with one capturing group: pieces
of unmatched text alternate with captured groups.  The fuel argument
(`text.length` at the top call) only serves termination; a successful
match always consumes at least one character, so the fuel never runs out
on the fuelled calls below. -/
def splitScanGo (matchAt : List Char → Option (List Char × List Char)) :
    Nat → List Char → List Char → List (List Char)
  | _, acc, [] => [acc.reverse]
  | 0, acc, l => [acc.reverse ++ l]
  | fuel + 1, acc, c :: cs =>
    match matchAt (c :: cs) with
    | some (g, rest) => acc.reverse :: g :: splitScanGo matchAt fuel [] rest
    | none => splitScanGo matchAt fuel (c :: acc) cs

/-- `re.split(pattern, text)` for the one-group section patterns. -/
def pySplit (matchAt : List Char → Option (List Char × List Char))
    (text : List Char) : List (List Char) :=
  splitScanGo matchAt text.length [] text

/-- The loop `for i in range(1, len(sections), 2)` pairing each captured
filename with the following section. -/
def pairUp : List (List Char) → List (List Char × List Char)
  | g :: s :: rest => (g, s) :: pairUp rest
  | _ => []

/-- `re.sub(r'^```\w*\n?', '', s)`. -/
def stripFenceOpen (cs : List Char) : List Char :=
  if cs.take 3 = ['`', '`', '`'] then
    let rest := (cs.drop 3).dropWhile pyWord
    if rest.take 1 = ['\n'] then rest.drop 1 else rest
  else cs

/-- `re.sub(r'\n?```$', '', s)` on a string with no trailing newline
(the content was already stripped). -/
def stripFenceClose (cs : List Char) : List Char :=
  let r := cs.reverse
  if r.take 3 = ['`', '`', '`'] then
    if (r.drop 3).take 1 = ['\n'] then ((r.drop 3).drop 1).reverse
    else (r.drop 3).reverse
  else cs

/-- `content = sections[i+1].strip()` followed by the two fence
removals. -/
def processSection (s : List Char) : List Char :=
  stripFenceClose (stripFenceOpen (pyStrip s))

/-- The per-pattern extraction: split, pair up, strip names and process
contents; no files when the pattern found no section. -/
def extractFiles (matchAt : List Char → Option (List Char × List Char))
    (text : List Char) : List (String × String) :=
  let pieces := pySplit matchAt text
  if pieces.length ≤ 1 then []
  else (pairUp pieces.tail).map fun p =>
    (String.mk (pyStrip p.1), String.mk (processSection p.2))

/-- Python `str.lower()` on ASCII. -/
def pyLower (s : String) : String := String.mk (s.data.map Char.toLower)

/-- `any(keyword in text for keyword in keys)`. -/
def anyKey (keys : List String) (s : String) : Bool :=
  keys.any fun k => containsSub k s

/-- `TaskResultManager._infer_task_type`. -/
def infer_task_type (task_content result_text : String) : String :=
  let cl := pyLower task_content
  let rl := pyLower result_text
  if anyKey ["コード生成", "code", "function", "class", "プログラム"] cl then "code_generation"
  else if anyKey ["def ", "class ", "import ", "function", "```"] rl then "code_generation"
  else if anyKey ["分析", "analysis", "データ", "レポート", "統計"] cl then "data_analysis"
  else if anyKey ["##", "###", "分析", "グラフ", "結果"] rl then "data_analysis"
  else if anyKey ["翻訳", "translation", "英訳", "和訳"] cl then "translation"
  else if containsSub "翻訳:" rl || containsSub "translation:" rl then "translation"
  else if anyKey ["エラー", "error", "例外", "exception"] cl then "error_handling"
  else if anyKey ["error", "exception", "エラー", "failed"] rl then "error_handling"
  else "text_generation"

/-- `files_created[0]` unless some generated name ends in `.html`. -/
def mainOf (names : List String) : Option String :=
  match names.filter (fun n => n.endsWith ".html") with
  | m :: _ => some m
  | [] => names.head?

/-- What `_save_formatted_result` writes: the individually extracted
files with their contents, the file list of `README.md` when one is
written, the name returned as main artifact, and the name of the single
fallback file when no sections were detected. -/
structure SaveResult where
  files : List (String × String)
  readme : Option (List String)
  mainFile : Option String
  singleFile : Option String
deriving DecidableEq, Repr

/-- `TaskResultManager._save_formatted_result` (file names and extracted
contents; the fixed headers prepended in the fallback branches are not
tracked). -/
def save_formatted_result (result_text task_id task_type : String) : SaveResult :=
  if task_type = "code_generation" then
    let f1 := extractFiles matchMarker1 result_text.data
    let fs :=
      if !f1.isEmpty then f1
      else
        let f2 := extractFiles matchMarker2 result_text.data
        if !f2.isEmpty then f2 else extractFiles matchMarker3 result_text.data
    if !fs.isEmpty then
      let names := fs.map Prod.fst
      { files := fs, readme := some names, mainFile := mainOf names, singleFile := none }
    else
      { files := [], readme := none, mainFile := none,
        singleFile := some (task_id ++ "_result.py") }
  else if task_type = "data_analysis" then
    { files := [], readme := none, mainFile := none,
      singleFile := some (task_id ++ "_analysis.md") }
  else if task_type = "translation" then
    { files := [], readme := none, mainFile := none,
      singleFile := some (task_id ++ "_translation.txt") }
  else if task_type = "error_handling" then
    { files := [], readme := none, mainFile := none,
      singleFile := some (task_id ++ "_error_log.txt") }
  else
    { files := [], readme := none, mainFile := none,
      singleFile := some (task_id ++ "_deliverable.txt") }

/-- The pipeline of `save_task_deliverable`: infer the type from prompt
and output, then save accordingly. -/
def save_task_deliverable (result_text task_id task_content : String) :
    String × SaveResult :=
  let ty := infer_task_type task_content result_text
  (ty, save_formatted_result result_text task_id ty)

/-- The marker `--- f ---` as written in worker output. -/
def marker (f : List Char) : List Char :=
  '-' :: '-' :: '-' :: ' ' :: (f ++ [' ', '-', '-', '-'])

/-- A two-section output: `--- f1 ---` newline `c1` newline `--- f2 ---`
newline `c2`. -/
def textOf (f1 c1 f2 c2 : List Char) : List Char :=
  marker f1 ++ ('\n' :: (c1 ++ ('\n' :: (marker f2 ++ ('\n' :: c2)))))

/-! ## Theorems -/

/-- Mapping a guarded rewrite whose guard never fires is the identity. -/
theorem map_if_none {α : Type} (p : α → Bool) (f : α → α) (l : List α)
    (h : ∀ a ∈ l, p a = false) :
    (l.map fun a => if p a then f a else a) = l := by
  have : ∀ a ∈ l, (if p a then f a else a) = id a := by
    intro a ha
    simp [h a ha]
  rw [List.map_congr_left this, List.map_id]

/-- Filtering by a predicate after keeping only its complement gives `[]`. -/
theorem filter_neg_self {α : Type} (p : α → Bool) (l : List α) :
    ((l.filter fun a => !p a).filter p) = [] := by
  rw [List.filter_eq_nil_iff]
  intro _ ha
  have := (List.mem_filter.mp ha).2
  simp at this
  simp [this]

/-- Keeping only the complement of a predicate is idempotent. -/
theorem filter_neg_idem {α : Type} (p : α → Bool) (l : List α) :
    ((l.filter fun a => !p a).filter fun a => !p a) = l.filter fun a => !p a :=
  List.filter_eq_self.mpr fun _ ha => (List.mem_filter.mp ha).2

/-- C10: for every result text and task type the quality heuristic stays in
[70, 100]: the base is 70, every bonus is non-negative, and the result is
capped at 100, so no deliverable is ever scored below 70. -/
theorem assess_quality_bounds (result_text task_type : String) :
    70 ≤ assess_quality result_text task_type ∧
    assess_quality result_text task_type ≤ 100 := by
  unfold assess_quality
  refine ⟨?_, Nat.min_le_right _ _⟩
  refine Nat.le_min.mpr ⟨?_, by omega⟩
  split_ifs <;> (try simp only []) <;> omega

/-- C5: no scheduling tick spawns a worker while the active-task count is
at or above `max_active_tasks`; in particular whenever the number of
`in_progress` tasks alone already reaches the cap, the tick spawns
nothing. -/
theorem scale_workers_backpressure (cfg : PoolConfig)
    (pending inProgress processing activeWorkers : Nat) (idleWorkers : List String)
    (h : cfg.max_active_tasks ≤ inProgress) :
    (scale_workers cfg pending inProgress processing activeWorkers idleWorkers).1 = 0 := by
  unfold scale_workers
  have hcap : cfg.max_active_tasks ≤ inProgress + processing := by omega
  simp [hcap]

/-- Witness for C5 at a concrete tick: cap 2, 2 tasks in progress. -/
theorem scale_workers_backpressure_witness :
    (scale_workers ⟨1, 5, 2⟩ 7 2 0 1 ["w1"]).1 = 0 :=
  scale_workers_backpressure ⟨1, 5, 2⟩ 7 2 0 1 ["w1"] (by decide)

/-! ### C1: conditional completion -/

/-- A store in which task `t1` is already `completed` but still carries
`assigned_to = w1`, exactly as `complete_task_with_stats` itself leaves a
finished task (it never clears `assigned_to`). -/
def c1State : DBState :=
  ⟨[{ task_id := "t1", content := "c", status := "completed", priority := 5,
      result := none, created_by := "m", assigned_to := some "w1",
      created_at := 1, updated_at := 1 }],
   [{ worker_id := "w1", status := "idle", current_task := none,
      tasks_completed := 0, tasks_failed := 0, last_heartbeat := 0 }]⟩

/-- C1 counterexample: the claim says `completeTaskWithStats` succeeds only
when the task is `in_progress` and is otherwise a no-op that increments no
counter.  On a task whose status is `completed` (but still assigned to the
caller) the code succeeds, rewrites the task row and increments
`tasks_completed` — the source's UPDATE matches on
`task_id = ? AND assigned_to = ?` with no status condition. -/
theorem complete_task_claim_false :
    (∀ t ∈ c1State.tasks, t.status ≠ "in_progress") ∧
    (complete_task_with_stats "t1" "w1" "r" true 9 c1State).1 = true ∧
    (complete_task_with_stats "t1" "w1" "r" true 9 c1State).2 ≠ c1State ∧
    ((complete_task_with_stats "t1" "w1" "r" true 9 c1State).2.workers.map
        DBWorker.tasks_completed) = [1] := by
  decide

/-- C1 (amended): `complete_task_with_stats t w r s` succeeds iff
immediately prior some task row matches `task_id = t ∧ assigned_to = w`,
whatever its status; in every other case it is a no-op (the state is
returned unchanged, so no task row changes and no worker counter is
incremented).  On success the matching task rows become terminal and every
worker row named `w` gets the appropriate counter incremented and is reset
to idle. -/
theorem complete_task_with_stats_spec (tid wid r : String) (success : Bool)
    (now : Nat) (st : DBState) :
    ((complete_task_with_stats tid wid r success now st).1 = true ↔
        ∃ t ∈ st.tasks, t.task_id = tid ∧ t.assigned_to = some wid) ∧
    ((∀ t ∈ st.tasks, ¬(t.task_id = tid ∧ t.assigned_to = some wid)) →
        complete_task_with_stats tid wid r success now st = (false, st)) ∧
    ((∃ t ∈ st.tasks, t.task_id = tid ∧ t.assigned_to = some wid) →
        (complete_task_with_stats tid wid r success now st).2.workers =
          st.workers.map (completeWorkerUpd wid success now)) := by
  have hmatch : ∀ t : DBTask, completeMatch tid wid t = true ↔
      t.task_id = tid ∧ t.assigned_to = some wid := by
    intro t
    simp [completeMatch]
  have hany : st.tasks.any (completeMatch tid wid) = true ↔
      ∃ t ∈ st.tasks, t.task_id = tid ∧ t.assigned_to = some wid := by
    rw [List.any_eq_true]
    constructor
    · rintro ⟨t, ht, hm⟩; exact ⟨t, ht, (hmatch t).mp hm⟩
    · rintro ⟨t, ht, hm⟩; exact ⟨t, ht, (hmatch t).mpr hm⟩
  constructor
  · constructor
    · intro h
      by_cases hc : st.tasks.any (completeMatch tid wid) = true
      · exact hany.mp hc
      · exfalso
        unfold complete_task_with_stats at h
        rw [if_neg hc] at h
        simp at h
    · intro h
      unfold complete_task_with_stats
      rw [if_pos (hany.mpr h)]
  · constructor
    · intro h
      have hc : ¬ st.tasks.any (completeMatch tid wid) = true := by
        intro hc
        obtain ⟨t, ht, h1, h2⟩ := hany.mp hc
        exact h t ht ⟨h1, h2⟩
      unfold complete_task_with_stats
      rw [if_neg hc]
    · intro h
      unfold complete_task_with_stats
      rw [if_pos (hany.mpr h)]

/-- Witness for C1's amended theorem: a pending-free concrete store where
the task is assigned to the caller, so completion succeeds. -/
theorem complete_task_with_stats_spec_witness :
    (complete_task_with_stats "t1" "w1" "r" true 9 c1State).2.workers =
      c1State.workers.map (completeWorkerUpd "w1" true 9) :=
  (complete_task_with_stats_spec "t1" "w1" "r" true 9 c1State).2.2
    ⟨c1State.tasks.head (by decide), by decide⟩

/-- C4: `cleanup_dead_workers` is idempotent (a second run with the same
clock is the identity and reaps nobody); after one run every task that was
`in_progress` and assigned to a worker whose heartbeat is at least the
timeout old is pending and unassigned, exactly the dead worker rows are
removed, and the returned count is the number of workers reaped. -/
theorem cleanup_dead_workers_spec (timeout now : Nat) (st : DBState) :
    cleanup_dead_workers timeout now (cleanup_dead_workers timeout now st).2 =
      (0, (cleanup_dead_workers timeout now st).2) ∧
    (cleanup_dead_workers timeout now st).1 =
      (st.workers.filter (isDead timeout now)).length ∧
    (cleanup_dead_workers timeout now st).2.workers =
      st.workers.filter (fun w => !(isDead timeout now w)) ∧
    (∀ t ∈ st.tasks, t.status = "in_progress" → ∀ a, t.assigned_to = some a →
      (∃ w ∈ st.workers, w.worker_id = a ∧ isDead timeout now w = true) →
      { t with status := "pending", assigned_to := none } ∈
        (cleanup_dead_workers timeout now st).2.tasks) := by
  refine ⟨?_, rfl, rfl, ?_⟩
  · have hw : (cleanup_dead_workers timeout now st).2.workers =
        st.workers.filter fun w => !(isDead timeout now w) := rfl
    have hdead : (cleanup_dead_workers timeout now st).2.workers.filter
        (isDead timeout now) = [] := by
      rw [hw]; exact filter_neg_self _ _
    have hmap : ((cleanup_dead_workers timeout now st).2.tasks.map fun t =>
        if taskOrphanMatch (([] : List DBWorker).map DBWorker.worker_id) t
        then { t with status := "pending", assigned_to := none } else t) =
        (cleanup_dead_workers timeout now st).2.tasks := by
      apply map_if_none
      intro t _
      unfold taskOrphanMatch
      cases t.assigned_to <;> simp [List.contains]
    conv_lhs => rw [cleanup_dead_workers]
    simp only [hdead, List.length_nil]
    rw [hmap, hw, filter_neg_idem, ← hw]
  · intro t ht hstat a ha hex
    obtain ⟨w, hw, hid, hd⟩ := hex
    have hmem : a ∈ (st.workers.filter (isDead timeout now)).map DBWorker.worker_id := by
      rw [List.mem_map]
      exact ⟨w, List.mem_filter.mpr ⟨hw, hd⟩, hid⟩
    have hmatch : taskOrphanMatch
        ((st.workers.filter (isDead timeout now)).map DBWorker.worker_id) t = true := by
      unfold taskOrphanMatch
      rw [ha]
      simp [hstat, List.contains, List.elem_iff, hmem]
    have h2 := List.mem_map_of_mem
      (fun t => if taskOrphanMatch
          ((st.workers.filter (isDead timeout now)).map DBWorker.worker_id) t
        then { t with status := "pending", assigned_to := none } else t) ht
    simp only [hmatch, if_true] at h2
    exact h2

/-- Concrete task for the C4 witness: in progress, assigned to `w1`. -/
def c4Task : DBTask :=
  { task_id := "t1", content := "c", status := "in_progress", priority := 5,
    result := none, created_by := "m", assigned_to := some "w1",
    created_at := 1, updated_at := 1 }

/-- Concrete stale worker for the C4 witness (heartbeat 10 at clock 100). -/
def c4Dead : DBWorker :=
  { worker_id := "w1", status := "busy", current_task := some "t1",
    tasks_completed := 0, tasks_failed := 0, last_heartbeat := 10 }

/-- Concrete store for the C4 witness: one stale worker holding one
in-progress task, one fresh worker. -/
def c4State : DBState :=
  ⟨[c4Task],
   [c4Dead,
    { worker_id := "w2", status := "idle", current_task := none,
      tasks_completed := 0, tasks_failed := 0, last_heartbeat := 90 }]⟩

/-- Witness for C4 at the concrete store `c4State`. -/
theorem cleanup_dead_workers_spec_witness :
    { c4Task with status := "pending", assigned_to := none } ∈
      (cleanup_dead_workers 60 100 c4State).2.tasks :=
  (cleanup_dead_workers_spec 60 100 c4State).2.2.2 c4Task (by decide) (by decide)
    "w1" (by decide) ⟨c4Dead, by decide, by decide, by decide⟩

/-- Store for the C3 counterexample: task `t1` is already `in_progress`
and assigned to `w1`; `w2` is idle. -/
def c3State : DBState :=
  ⟨[{ task_id := "t1", content := "c", status := "in_progress", priority := 5,
      result := none, created_by := "m", assigned_to := some "w1",
      created_at := 1, updated_at := 1 }],
   [{ worker_id := "w2", status := "idle", current_task := none,
      tasks_completed := 0, tasks_failed := 0, last_heartbeat := 0 }]⟩

/-- C3 counterexample: the claim says the PoolManager dispatch step moves a
task to `in_progress` only if it is still pending and leaves any other
task unchanged.  The dispatch step of `EnhancedWorkerPoolManager`
(its own raw UPDATE, not `DatabaseManager.assign_task_to_worker`) has no
such condition: on a task already `in_progress` and assigned to `w1` it
still fires and re-assigns the task to `w2`, a double assignment. -/
theorem pool_assign_claim_false :
    (∀ t ∈ c3State.tasks, t.status ≠ "pending") ∧
    pool_assign_task_step "t1" "w2" c3State ≠ c3State ∧
    ((pool_assign_task_step "t1" "w2" c3State).tasks.map DBTask.assigned_to) =
      [some "w2"] := by
  decide

/-- C3 (amended): the Store operation `assign_task_to_worker` is the
conditional one: when no task row with the given id is pending it returns
false and leaves the store unchanged, and after any call no task with that
id is pending, so a second conditional assignment of the same task (by
another PoolManager instance or a racing claim) is rejected as a no-op —
but the `EnhancedWorkerPoolManager` dispatch step itself updates
unconditionally and enjoys no such protection. -/
theorem db_assign_conditional (tid wid : String) (now : Nat) (st : DBState) :
    ((∀ t ∈ st.tasks, t.task_id = tid → t.status ≠ "pending") →
        db_assign_task_to_worker tid wid now st = (false, st)) ∧
    (∀ wid2 now2,
        db_assign_task_to_worker tid wid2 now2 (db_assign_task_to_worker tid wid now st).2 =
          (false, (db_assign_task_to_worker tid wid now st).2)) := by
  have hnone : ∀ (s : DBState), (∀ t ∈ s.tasks, t.task_id = tid → t.status ≠ "pending") →
      ∀ (w : String) (n : Nat), db_assign_task_to_worker tid w n s = (false, s) := by
    intro s hs w n
    unfold db_assign_task_to_worker
    have hp : ∀ t ∈ s.tasks, (t.task_id == tid && t.status == "pending") = false := by
      intro t ht
      by_cases hid : t.task_id = tid
      · have := hs t ht hid
        simp [hid, this]
      · simp [hid]
    have hany : (s.tasks.any fun t => t.task_id == tid && t.status == "pending") = false := by
      rw [List.any_eq_false]
      intro t ht
      simp [hp t ht]
    rw [hany, map_if_none _ _ _ hp]
  constructor
  · intro h
    exact hnone st h wid now
  · intro wid2 now2
    apply hnone
    intro t ht hid
    have : t ∈ (st.tasks.map fun u =>
        if u.task_id == tid && u.status == "pending" then
          { u with status := "in_progress", assigned_to := some wid, updated_at := now }
        else u) := ht
    rw [List.mem_map] at this
    obtain ⟨u, _, hu⟩ := this
    by_cases hc : (u.task_id == tid && u.status == "pending") = true
    · rw [if_pos hc] at hu
      rw [← hu]
      simp
    · rw [if_neg hc] at hu
      subst hu
      simp only [Bool.and_eq_true, beq_iff_eq, not_and] at hc
      intro hpend
      exact hc hid hpend

/-- Witness for C3's amended theorem: on the concrete `c3State` (no pending
row named `t1`) the conditional Store assignment is a rejected no-op. -/
theorem db_assign_conditional_witness :
    db_assign_task_to_worker "t1" "w2" 5 c3State = (false, c3State) :=
  (db_assign_conditional "t1" "w2" 5 c3State).1 (by decide)

/-- Folding the keep-incumbent argmax step starting from `some b` yields an
element that is `b` or in the list and is never beaten by `b` or by any
list element.  `better` must be irreflexive, transitive, and negatively
transitive. -/
theorem pickArg_go {α : Type} (better : α → α → Bool)
    (hirr : ∀ a, better a a = false)
    (htrans : ∀ a b c, better a b = true → better b c = true → better a c = true)
    (hneg : ∀ a b c, better a b = false → better b c = false → better a c = false) :
    ∀ (l : List α) (b : α),
      ∃ t, List.foldl (fun acc w =>
          match acc with
          | none => some w
          | some b => if better b w then some w else some b) (some b) l = some t ∧
        (t = b ∨ t ∈ l) ∧ better t b = false ∧ ∀ u ∈ l, better t u = false := by
  intro l
  induction l with
  | nil =>
    intro b
    exact ⟨b, rfl, Or.inl rfl, hirr b, by simp⟩
  | cons w l ih =>
    intro b
    by_cases h : better b w = true
    · obtain ⟨t, hfold, hmem, htw, hall⟩ := ih w
      refine ⟨t, ?_, ?_, ?_, ?_⟩
      · simpa [h] using hfold
      · rcases hmem with rfl | hm
        · exact Or.inr (List.mem_cons_self _ _)
        · exact Or.inr (List.mem_cons_of_mem _ hm)
      · by_contra hc
        rw [Bool.not_eq_false] at hc
        rw [htrans t b w hc h] at htw
        exact Bool.true_eq_false.mp htw
      · intro u hu
        rcases List.mem_cons.mp hu with rfl | hm
        · exact htw
        · exact hall u hm
    · rw [Bool.not_eq_true] at h
      obtain ⟨t, hfold, hmem, htb, hall⟩ := ih b
      refine ⟨t, ?_, ?_, htb, ?_⟩
      · simpa [h] using hfold
      · rcases hmem with rfl | hm
        · exact Or.inl rfl
        · exact Or.inr (List.mem_cons_of_mem _ hm)
      · intro u hu
        rcases List.mem_cons.mp hu with rfl | hm
        · exact hneg t b u htb h
        · exact hall u hm

/-- `pickArg` on a non-empty list returns a member that no list element
strictly beats; on the empty list it returns `none`. -/
theorem pickArg_spec {α : Type} (better : α → α → Bool)
    (hirr : ∀ a, better a a = false)
    (htrans : ∀ a b c, better a b = true → better b c = true → better a c = true)
    (hneg : ∀ a b c, better a b = false → better b c = false → better a c = false)
    (l : List α) :
    (pickArg better l = none ↔ l = []) ∧
    ∀ t, pickArg better l = some t → t ∈ l ∧ ∀ u ∈ l, better t u = false := by
  cases l with
  | nil =>
    constructor
    · simp [pickArg]
    · intro t ht
      simp [pickArg] at ht
  | cons a l =>
    obtain ⟨t, hfold, hmem, hta, hall⟩ := pickArg_go better hirr htrans hneg l a
    have hp : pickArg better (a :: l) = some t := by
      simpa [pickArg] using hfold
    constructor
    · rw [hp]
      simp
    · intro t' ht'
      rw [hp] at ht'
      obtain rfl : t = t' := by injection ht'
      refine ⟨?_, ?_⟩
      · rcases hmem with rfl | hm
        · exact List.mem_cons_self _ _
        · exact List.mem_cons_of_mem _ hm
      · intro u hu
        rcases List.mem_cons.mp hu with rfl | hm
        · exact hta
        · exact hall u hm

/-- `betterTask` unfolded to the ordering it implements. -/
theorem betterTask_iff (b t : DBTask) :
    betterTask b t = true ↔
      b.priority < t.priority ∨
      (b.priority = t.priority ∧ t.created_at < b.created_at) := by
  simp [betterTask]

/-- `betterTask` is irreflexive. -/
theorem betterTask_irrefl (a : DBTask) : betterTask a a = false := by
  simp [betterTask]

/-- `betterTask` is transitive. -/
theorem betterTask_trans (a b c : DBTask) (h1 : betterTask a b = true)
    (h2 : betterTask b c = true) : betterTask a c = true := by
  rw [betterTask_iff] at h1 h2 ⊢
  rcases h1 with h1 | ⟨h1, h1'⟩ <;> rcases h2 with h2 | ⟨h2, h2'⟩ <;> omega

/-- `betterTask` is negatively transitive. -/
theorem betterTask_negtrans (a b c : DBTask) (h1 : betterTask a b = false)
    (h2 : betterTask b c = false) : betterTask a c = false := by
  rw [← Bool.not_eq_true] at h1 h2 ⊢
  rw [betterTask_iff] at h1 h2 ⊢
  push_neg at h1 h2 ⊢
  constructor
  · omega
  · intro h
    have := h1.1
    have := h2.1
    omega

/-- C2: `acquire_next_task` returns null and leaves the store unchanged
when no pending task exists; otherwise it returns the pending task that is
first in `(priority desc, created_at asc)` order (insertion order breaking
ties), marks exactly that task `in_progress`/`assigned_to = wid`, and sets
the caller's worker row busy on it with a refreshed heartbeat. -/
theorem acquire_next_task_spec (wid : String) (now : Nat) (st : DBState) :
    (st.tasks.filter isPending = [] → acquire_next_task wid now st = (none, st)) ∧
    (∀ t, pickArg betterTask (st.tasks.filter isPending) = some t →
      t ∈ st.tasks ∧ t.status = "pending" ∧
      (∀ u ∈ st.tasks, u.status = "pending" →
        u.priority ≤ t.priority ∧ (u.priority = t.priority → t.created_at ≤ u.created_at)) ∧
      acquire_next_task wid now st =
        (some ⟨t.task_id, t.content, t.priority, t.created_at⟩,
         ⟨st.tasks.map fun u =>
            if u.task_id == t.task_id && isPending u then
              { u with status := "in_progress", assigned_to := some wid, updated_at := now }
            else u,
          st.workers.map fun w =>
            if w.worker_id == wid then
              { w with status := "busy", current_task := some t.task_id, last_heartbeat := now }
            else w⟩) ∧
      (∀ w ∈ st.workers, w.worker_id = wid →
        { w with status := "busy", current_task := some t.task_id, last_heartbeat := now }
          ∈ (acquire_next_task wid now st).2.workers)) := by
  have hspec := pickArg_spec betterTask betterTask_irrefl betterTask_trans
    betterTask_negtrans (st.tasks.filter isPending)
  constructor
  · intro h
    have : pickArg betterTask (st.tasks.filter isPending) = none := hspec.1.mpr h
    unfold acquire_next_task
    rw [this]
  · intro t ht
    obtain ⟨hmem, hbeat⟩ := hspec.2 t ht
    have hmem' := List.mem_filter.mp hmem
    have hpend : t.status = "pending" := by
      have := hmem'.2
      simpa [isPending] using this
    refine ⟨hmem'.1, hpend, ?_, ?_, ?_⟩
    · intro u hu hup
      have hufil : u ∈ st.tasks.filter isPending :=
        List.mem_filter.mpr ⟨hu, by simp [isPending, hup]⟩
      have hb := hbeat u hufil
      rw [← Bool.not_eq_true, betterTask_iff] at hb
      push_neg at hb
      obtain ⟨h1, h2⟩ := hb
      refine ⟨by omega, fun he => ?_⟩
      have := h2 he.symm
      omega
    · unfold acquire_next_task
      rw [ht]
    · intro w hw hid
      unfold acquire_next_task
      rw [ht]
      have h2 := List.mem_map_of_mem
        (fun w : DBWorker => if w.worker_id == wid then
          { w with status := "busy", current_task := some t.task_id, last_heartbeat := now }
          else w) hw
      have hc : (w.worker_id == wid) = true := by simp [hid]
      simp only [hc, if_true] at h2
      exact h2

/-- Concrete store for the C2 witness: three pending tasks with a tie in
priority between the first and the third. -/
def c2State : DBState :=
  ⟨[{ task_id := "t1", content := "a", status := "pending", priority := 9,
      result := none, created_by := "m", assigned_to := none,
      created_at := 1, updated_at := 1 },
    { task_id := "t2", content := "b", status := "pending", priority := 5,
      result := none, created_by := "m", assigned_to := none,
      created_at := 2, updated_at := 2 },
    { task_id := "t3", content := "c", status := "pending", priority := 9,
      result := none, created_by := "m", assigned_to := none,
      created_at := 3, updated_at := 3 }],
   [{ worker_id := "w1", status := "idle", current_task := none,
      tasks_completed := 0, tasks_failed := 0, last_heartbeat := 0 }]⟩

/-- Witness for C2 at `c2State`: the claim picks `t1` (priority 9, earliest
creation) for worker `w1`. -/
theorem acquire_next_task_spec_witness :
    (acquire_next_task "w1" 7 c2State).1 = some ⟨"t1", "a", 9, 1⟩ := by
  have h := (acquire_next_task_spec "w1" 7 c2State).2
    (c2State.tasks.head (by decide)) (by decide)
  rw [h.2.2.2.1]
  rfl

/-- `pickArg_spec` specialised to the router's score ordering. -/
theorem pickScore_spec (l : List RWorker) :
    (pickArg betterScore l = none ↔ l = []) ∧
    ∀ t, pickArg betterScore l = some t → t ∈ l ∧ ∀ u ∈ l, betterScore t u = false :=
  pickArg_spec betterScore
    (fun a => by simp [betterScore])
    (fun a b c h1 h2 => by
      simp only [betterScore, decide_eq_true_eq] at h1 h2 ⊢
      exact lt_trans h1 h2)
    (fun a b c h1 h2 => by
      simp only [betterScore, decide_eq_false_iff_not, not_lt] at h1 h2 ⊢
      exact le_trans h2 h1)
    l

/-- A worker id returned by `_select_best_worker` names a candidate. -/
theorem select_best_worker_mem (cs : List RWorker) (id : String)
    (h : select_best_worker cs = some id) : ∃ w ∈ cs, w.worker_id = id := by
  unfold select_best_worker at h
  cases hp : pickArg betterScore cs with
  | none => rw [hp] at h; simp at h
  | some t =>
    rw [hp] at h
    simp only [Option.map_some', Option.some.injEq] at h
    exact ⟨t, ((pickScore_spec cs).2 t hp).1, h⟩

/-- `_select_best_worker` returns an id on every non-empty candidate
list. -/
theorem select_best_worker_isSome (cs : List RWorker) (h : cs ≠ []) :
    ∃ id, select_best_worker cs = some id := by
  cases hp : pickArg betterScore cs with
  | none => exact absurd ((pickScore_spec cs).1.mp hp) h
  | some t => exact ⟨t.worker_id, by simp [select_best_worker, hp]⟩

/-- C7: the router's candidate score is
`100 × performance_factor + (50 if idle else −30 if busy else 0) +
30 × success_rate` with `success_rate = completed / (completed + failed)`
and 0 without history; and among scored candidates the router picks one of
maximal score (the earliest on ties, via the stable descending sort). -/
theorem worker_score_spec :
    (∀ w : RWorker, calculate_worker_score w =
        100 * w.performance_factor
          + (if w.status = "idle" then (50 : ℚ)
             else if w.status = "busy" then -30 else 0)
          + 30 * (if w.tasks_completed + w.tasks_failed = 0 then (0 : ℚ)
                  else (w.tasks_completed : ℚ) /
                    ((w.tasks_completed + w.tasks_failed : Nat) : ℚ))) ∧
    (∀ (cands : List RWorker) (t : RWorker), pickArg betterScore cands = some t →
        t ∈ cands ∧ select_best_worker cands = some t.worker_id ∧
        ∀ u ∈ cands, calculate_worker_score u ≤ calculate_worker_score t) ∧
    (∀ cands : List RWorker, cands ≠ [] → select_best_worker cands ≠ none) := by
  refine ⟨?_, ?_, ?_⟩
  · intro w
    dsimp only [calculate_worker_score]
    split_ifs <;> first | ring1 | (exfalso; omega)
  · intro cands t hp
    obtain ⟨hmem, hall⟩ := (pickScore_spec cands).2 t hp
    refine ⟨hmem, by simp [select_best_worker, hp], ?_⟩
    intro u hu
    have := hall u hu
    simpa [betterScore, not_lt] using this
  · intro cands h hn
    obtain ⟨id, hid⟩ := select_best_worker_isSome cands h
    rw [hid] at hn
    exact Option.some_ne_none _ hn

/-- Busy local worker for the C7 witness. -/
def c7A : RWorker := ⟨"wA", "busy", some "local", 1, 0, 0⟩

/-- Idle local worker with history for the C7 witness. -/
def c7B : RWorker := ⟨"wB", "idle", some "local", 1, 3, 1⟩

/-- Witness for C7: between a busy worker (score 70) and an idle one with
3/4 success history (score 172.5), the router picks the latter. -/
theorem worker_score_spec_witness :
    select_best_worker [c7A, c7B] = some "wB" := by
  have hlt : calculate_worker_score c7A < calculate_worker_score c7B := by
    simp only [calculate_worker_score, c7A, c7B,
      eq_false (by decide : ¬("busy" : String) = "idle"),
      eq_self_iff_true, if_true, if_false]
    norm_num
  have hp : pickArg betterScore [c7A, c7B] = some c7B := by
    simp only [pickArg, List.foldl_cons, List.foldl_nil]
    simp [betterScore, hlt]
  exact (worker_score_spec.2.1 [c7A, c7B] c7B hp).2.1

/-- A worker id produced by the preferred-worker block is a member of the
available list. -/
theorem routePreferred_mem (task : RTask) (ws : List RWorker) (p : String)
    (h : routePreferred task ws = some p) : ∃ w ∈ ws, w.worker_id = p := by
  unfold routePreferred at h
  cases hq : task.preferred_worker with
  | none => rw [hq] at h; simp at h
  | some q =>
    rw [hq] at h
    dsimp only at h
    by_cases hc : q ≠ "" ∧ (ws.any fun w => w.worker_id == q) = true
    · rw [if_pos hc] at h
      obtain rfl : q = p := by injection h
      obtain ⟨w, hw, hwq⟩ := List.any_eq_true.mp hc.2
      exact ⟨w, hw, by simpa using hwq⟩
    · rw [if_neg hc] at h
      simp at h

/-- A worker id produced by the local-busy fast path is a member of the
available list. -/
theorem routeFast_mem (ws : List RWorker) (id : String)
    (h : routeFast ws = some id) : ∃ w ∈ ws, w.worker_id = id := by
  unfold routeFast at h
  by_cases hc : ((ws.filter isLocalW).filter fun w => w.status == "idle").isEmpty = true ∧
      ¬((ws.filter fun w => !(isLocalW w)).isEmpty = true)
  · rw [if_pos hc] at h
    cases hsel : select_best_worker (ws.filter fun w => !(isLocalW w)) with
    | none => rw [hsel] at h; simp at h
    | some id0 =>
      rw [hsel] at h
      dsimp only at h
      by_cases hid0 : id0 ≠ ""
      · rw [if_pos hid0] at h
        obtain rfl : id0 = id := by injection h
        obtain ⟨w, hw, hwid⟩ := select_best_worker_mem _ _ hsel
        exact ⟨w, (List.mem_filter.mp hw).1, hwid⟩
      · rw [if_neg hid0] at h
        simp at h
  · rw [if_neg hc] at h
    simp at h

/-- A worker id returned from the inner preferred-types loop is a member
of the available list. -/
theorem inner_inl_mem (ws : List RWorker) :
    ∀ (types : List String) (cand : Option (List RWorker)) (id : String),
      innerRuleLoop ws types cand = Sum.inl id → ∃ w ∈ ws, w.worker_id = id := by
  intro types
  induction types with
  | nil =>
    intro cand id h
    simp [innerRuleLoop] at h
  | cons wt rest ih =>
    intro cand id h
    rw [innerRuleLoop] at h
    by_cases hcs : (ws.filter (matchWorkerType wt)).isEmpty = true
    · simp only [hcs, if_true] at h
      exact ih _ id h
    · simp only [hcs, Bool.false_eq_true, if_false] at h
      cases hsel : select_best_worker (ws.filter (matchWorkerType wt)) with
      | none =>
        rw [hsel] at h
        exact ih _ id h
      | some id0 =>
        rw [hsel] at h
        dsimp only at h
        by_cases hid0 : id0 ≠ ""
        · rw [if_pos hid0] at h
          obtain rfl : id0 = id := by injection h
          obtain ⟨w, hw, hwid⟩ := select_best_worker_mem _ _ hsel
          exact ⟨w, (List.mem_filter.mp hw).1, hwid⟩
        · rw [if_neg hid0] at h
          exact ih _ id h

/-- Once the Python local `candidates` has been assigned, the inner loop
can only fall through with it still assigned. -/
theorem inner_inr_some (ws : List RWorker) :
    ∀ (types : List String) (x : List RWorker) (c2 : Option (List RWorker)),
      innerRuleLoop ws types (some x) = Sum.inr c2 → ∃ y, c2 = some y := by
  intro types
  induction types with
  | nil =>
    intro x c2 h
    rw [innerRuleLoop] at h
    obtain rfl : some x = c2 := by injection h
    exact ⟨x, rfl⟩
  | cons wt rest ih =>
    intro x c2 h
    rw [innerRuleLoop] at h
    by_cases hcs : (ws.filter (matchWorkerType wt)).isEmpty = true
    · simp only [hcs, if_true] at h
      exact ih _ _ h
    · simp only [hcs, Bool.false_eq_true, if_false] at h
      cases hsel : select_best_worker (ws.filter (matchWorkerType wt)) with
      | none =>
        rw [hsel] at h
        exact ih _ _ h
      | some id0 =>
        rw [hsel] at h
        dsimp only at h
        by_cases hid0 : id0 ≠ ""
        · rw [if_pos hid0] at h
          exact absurd h (by simp)
        · rw [if_neg hid0] at h
          exact ih _ _ h

/-- With at least one preferred worker class, falling through the inner
loop always leaves `candidates` assigned. -/
theorem inner_inr_of_ne (ws : List RWorker) (types : List String)
    (hne : types ≠ []) (cand c2 : Option (List RWorker))
    (h : innerRuleLoop ws types cand = Sum.inr c2) : ∃ y, c2 = some y := by
  cases types with
  | nil => exact absurd rfl hne
  | cons wt rest =>
    rw [innerRuleLoop] at h
    by_cases hcs : (ws.filter (matchWorkerType wt)).isEmpty = true
    · simp only [hcs, if_true] at h
      exact inner_inr_some ws _ _ _ h
    · simp only [hcs, Bool.false_eq_true, if_false] at h
      cases hsel : select_best_worker (ws.filter (matchWorkerType wt)) with
      | none =>
        rw [hsel] at h
        exact inner_inr_some ws _ _ _ h
      | some id0 =>
        rw [hsel] at h
        dsimp only at h
        by_cases hid0 : id0 ≠ ""
        · rw [if_pos hid0] at h
          exact absurd h (by simp)
        · rw [if_neg hid0] at h
          exact inner_inr_some ws _ _ _ h

/-- When every rule either lists a preferred worker class or has no
local fallback, the rules loop never reads `candidates` unassigned. -/
theorem rulesLoop_ne_none (ws locals : List RWorker) (pri : Int) :
    ∀ (rules : List RoutingRule),
      (∀ r ∈ rules, r.preferred_workers ≠ [] ∨ r.fallback_to_local = false) →
      ∀ cand, rulesLoop ws locals pri rules cand ≠ none := by
  intro rules
  induction rules with
  | nil =>
    intro _ cand h
    simp [rulesLoop] at h
  | cons r rest ih =>
    intro hsafe cand
    have hr := hsafe r (List.mem_cons_self r rest)
    have hrest : ∀ r' ∈ rest, r'.preferred_workers ≠ [] ∨ r'.fallback_to_local = false :=
      fun r' h' => hsafe r' (List.mem_cons_of_mem r h')
    rw [rulesLoop]
    by_cases hm : r.priority_lo ≤ pri ∧ pri ≤ r.priority_hi
    · rw [if_pos hm]
      cases hin : innerRuleLoop ws r.preferred_workers cand with
      | inl id => simp
      | inr cand2 =>
        by_cases hf : r.fallback_to_local = true
        · simp only [hf, if_true]
          have htypes : r.preferred_workers ≠ [] := by
            rcases hr with h | h
            · exact h
            · rw [hf] at h; exact absurd h (by simp)
          obtain ⟨y, rfl⟩ := inner_inr_of_ne ws _ htypes _ _ hin
          by_cases hy : y.isEmpty = true
          · simp only [hy, if_true]
            by_cases hl : locals.isEmpty = true
            · simp only [hl, if_true]
              exact ih hrest _
            · simp only [hl, Bool.false_eq_true, if_false]
              simp
          · simp only [hy, Bool.false_eq_true, if_false]
            exact ih hrest _
        · have hf' : r.fallback_to_local = false := by
            revert hf; cases r.fallback_to_local <;> simp
          simp only [hf', Bool.false_eq_true, if_false]
          exact ih hrest _
    · rw [if_neg hm]
      exact ih hrest cand

/-- A worker id returned by the rules loop names an available worker
(the `locals` argument is the local sublist of `ws`). -/
theorem rulesLoop_mem (ws locals : List RWorker) (pri : Int)
    (hloc : ∀ w ∈ locals, w ∈ ws) :
    ∀ (rules : List RoutingRule) (cand : Option (List RWorker)) (id : String),
      rulesLoop ws locals pri rules cand = some (some id) →
      ∃ w ∈ ws, w.worker_id = id := by
  intro rules
  induction rules with
  | nil =>
    intro cand id h
    rw [rulesLoop] at h
    simp at h
  | cons r rest ih =>
    intro cand id h
    rw [rulesLoop] at h
    by_cases hm : r.priority_lo ≤ pri ∧ pri ≤ r.priority_hi
    · rw [if_pos hm] at h
      cases hin : innerRuleLoop ws r.preferred_workers cand with
      | inl id0 =>
        rw [hin] at h
        obtain rfl : id0 = id := by
          have := Option.some.inj h
          exact Option.some.inj this
        exact inner_inl_mem ws _ _ _ hin
      | inr cand2 =>
        rw [hin] at h
        by_cases hf : r.fallback_to_local = true
        · simp only [hf, if_true] at h
          cases cand2 with
          | none => simp at h
          | some y =>
            by_cases hy : y.isEmpty = true
            · simp only [hy, if_true] at h
              by_cases hl : locals.isEmpty = true
              · simp only [hl, if_true] at h
                exact ih _ id h
              · simp only [hl, Bool.false_eq_true, if_false] at h
                have hsel : select_best_worker locals = some id := Option.some.inj h
                obtain ⟨w, hw, hwid⟩ := select_best_worker_mem _ _ hsel
                exact ⟨w, hloc w hw, hwid⟩
            · simp only [hy, Bool.false_eq_true, if_false] at h
              exact ih _ id h
        · have hf' : r.fallback_to_local = false := by
            revert hf; cases r.fallback_to_local <;> simp
          simp only [hf', Bool.false_eq_true, if_false] at h
          exact ih _ id h
    · rw [if_neg hm] at h
      exact ih _ id h

/-- Routing policy with one matching rule that lists no preferred worker
classes but asks for the local fallback: evaluating it reads the loop
variable `candidates` before any assignment. -/
def c6Policy : RoutingPolicy := ⟨[⟨1, 10, [], true⟩]⟩

/-- Task of default priority with no preferred worker. -/
def c6Task : RTask := ⟨"t1", some 5, none⟩

/-- A single idle local worker. -/
def c6Worker : RWorker := ⟨"w1", "idle", some "local", 1, 0, 0⟩

/-- C6 counterexample: the claim says the router returns some member of
every non-empty `available_workers` list (null only for the empty list).
With a rule whose `preferred_workers` list is empty and
`fallback_to_local` true, `route_task` instead raises
`UnboundLocalError` reading `candidates` (the `none` outcome): it neither
returns null nor any worker for a non-empty list. -/
theorem route_task_claim_false :
    route_task c6Policy c6Task [c6Worker] = none ∧
    route_task c6Policy c6Task [c6Worker] ≠ some (some c6Worker.worker_id) ∧
    [c6Worker] ≠ ([] : List RWorker) := by
  decide

/-- C6 (amended): the router returns null on the empty worker list; a
non-empty preferred worker id that is present (in particular idle) in
`available_workers` is returned as-is; and whenever every rule either
lists at least one preferred worker class or has no local fallback (so
that no `UnboundLocalError` is possible), the router returns some member
of every non-empty worker list. -/
theorem route_task_amended (pol : RoutingPolicy) (task : RTask) (ws : List RWorker) :
    (route_task pol task [] = some none) ∧
    (∀ p, task.preferred_worker = some p → p ≠ "" →
      (∃ w ∈ ws, w.worker_id = p ∧ w.status = "idle") →
      route_task pol task ws = some (some p)) ∧
    ((∀ r ∈ pol.rules, r.preferred_workers ≠ [] ∨ r.fallback_to_local = false) →
      ws ≠ [] → ∃ w ∈ ws, route_task pol task ws = some (some w.worker_id)) := by
  refine ⟨rfl, ?_, ?_⟩
  · intro p hp hne hex
    cases ws with
    | nil =>
      obtain ⟨w, hw, _⟩ := hex
      exact absurd hw (List.not_mem_nil w)
    | cons w0 tl =>
      obtain ⟨w, hw, hid, _⟩ := hex
      have hpref : routePreferred task (w0 :: tl) = some p := by
        unfold routePreferred
        rw [hp]
        dsimp only
        rw [if_pos ⟨hne, List.any_eq_true.mpr ⟨w, hw, by simp [hid]⟩⟩]
      simp only [route_task, hpref]
  · intro hsafe hne
    cases ws with
    | nil => exact absurd rfl hne
    | cons w0 tl =>
      cases hpref : routePreferred task (w0 :: tl) with
      | some p =>
        obtain ⟨w, hw, hwid⟩ := routePreferred_mem task _ p hpref
        exact ⟨w, hw, by simp only [route_task, hpref, hwid]⟩
      | none =>
        cases hfast : routeFast (w0 :: tl) with
        | some id =>
          obtain ⟨w, hw, hwid⟩ := routeFast_mem _ id hfast
          exact ⟨w, hw, by simp only [route_task, hpref, hfast, hwid]⟩
        | none =>
          cases hloop : rulesLoop (w0 :: tl) ((w0 :: tl).filter isLocalW)
              (task.priority.getD 5) pol.rules none with
          | none => exact absurd hloop (rulesLoop_ne_none _ _ _ pol.rules hsafe none)
          | some o =>
            cases o with
            | none =>
              exact ⟨w0, List.mem_cons_self w0 tl,
                by simp only [route_task, hpref, hfast, hloop]⟩
            | some id =>
              obtain ⟨w, hw, hwid⟩ := rulesLoop_mem (w0 :: tl) _
                (task.priority.getD 5) (fun w hw => (List.mem_filter.mp hw).1)
                pol.rules none id hloop
              exact ⟨w, hw, by simp only [route_task, hpref, hfast, hloop, hwid]⟩

/-- Witness for C6's amended theorem: a preferred worker present and idle
is returned. -/
theorem route_task_amended_witness :
    route_task ⟨[]⟩ ⟨"t1", some 5, some "w1"⟩ [c6Worker] = some (some "w1") :=
  (route_task_amended ⟨[]⟩ ⟨"t1", some 5, some "w1"⟩ [c6Worker]).2.1 "w1" rfl
    (by decide) ⟨c6Worker, by decide, by decide, by decide⟩

/-- An empty-prompt delegate request, `{type: "general", prompt: "",
priority: 5, sync: true}`. -/
def c8Req : DelegateRequest := ⟨"general", none, some "", [], none, 5, true⟩

/-- A concrete Executor for the MasterAPI path. -/
def c8Ex : String → ExecResult := fun _ => ⟨true, "ok", none⟩

/-- A concrete content serialiser. -/
def c8EncC : DelegateRequest → String := fun _ => "content"

/-- A concrete result serialiser. -/
def c8EncR : ExecResult → String := fun _ => "result"

/-- A concrete Executor for the worker path. -/
def c8Ex2 : String → List String → Option String → ExecResult :=
  fun _ _ _ => ⟨true, "ok", none⟩

/-- A path validator that accepts everything. -/
def c8Validate : String → Option String := fun _ => none

/-- C8 counterexample: the claim says a MasterAPI delegate request with an
empty prompt yields `{status: "completed", result: {success: false,
error: "Prompt is empty"}}`.  The code instead rejects it with HTTP 400
`{"error": "No prompt provided"}` before any task is created: the
response is a bad-request error, not a completed response, and the store
is untouched. -/
theorem delegate_empty_prompt_claim_false :
    (delegate_task c8Ex c8EncC c8EncR "task_1" 0 c8Req ⟨[], []⟩).1 =
      DelegateResponse.badRequest "No prompt provided" ∧
    (delegate_task c8Ex c8EncC c8EncR "task_1" 0 c8Req ⟨[], []⟩).1 ≠
      DelegateResponse.completedR "task_1" ⟨false, "", some "Prompt is empty"⟩ ∧
    (delegate_task c8Ex c8EncC c8EncR "task_1" 0 c8Req ⟨[], []⟩).2 = ⟨[], []⟩ := by
  decide

/-- C8 (amended): a MasterAPI delegate request whose effective prompt is
empty is rejected with HTTP 400 `{"error": "No prompt provided"}` before
any task is created or any Executor invoked (the response and state are
the same for every Executor); and the worker execution path rejects a
task with an empty prompt (and validated paths) with `{success: false,
output: "", error: "Prompt is empty"}` without invoking the Executor. -/
theorem delegate_empty_prompt_amended :
    (∀ (ex : String → ExecResult) (encC : DelegateRequest → String)
        (encR : ExecResult → String) (tid : String) (now : Nat)
        (req : DelegateRequest) (st : DBState),
        effectivePrompt req = "" →
        delegate_task ex encC encR tid now req st =
          (DelegateResponse.badRequest "No prompt provided", st)) ∧
    (∀ (ex : String → List String → Option String → ExecResult)
        (validate : String → Option String) (tc : TaskContent),
        tc.prompt = "" →
        (∀ f ∈ tc.files, validate f = none) →
        (tc.output_file.getD "" = "" ∨ validate (tc.output_file.getD "") = none) →
        process_task ex validate tc =
          ({ success := false, output := "", error := some "Prompt is empty" }, false)) := by
  constructor
  · intro ex encC encR tid now req st h
    simp [delegate_task, h]
  · intro ex validate tc hp hf ho
    unfold process_task
    have h1 : tc.files.findSome? validate = none := by
      rw [List.findSome?_eq_none_iff]
      exact hf
    rw [h1]
    dsimp only
    have h2 : (if tc.output_file.getD "" = "" then none
        else validate (tc.output_file.getD "")) = none := by
      rcases ho with h | h
      · rw [if_pos h]
      · by_cases hb : tc.output_file.getD "" = ""
        · rw [if_pos hb]
        · rw [if_neg hb]
          exact h
    rw [h2]
    dsimp only
    rw [if_pos hp]

/-- Witness for C8's amended theorem at concrete requests. -/
theorem delegate_empty_prompt_amended_witness :
    delegate_task c8Ex c8EncC c8EncR "task_1" 3
        ⟨"general", some "", none, [], none, 5, true⟩ ⟨[], []⟩ =
      (DelegateResponse.badRequest "No prompt provided", ⟨[], []⟩) ∧
    process_task c8Ex2 c8Validate ⟨"general", "", [], none⟩ =
      (⟨false, "", some "Prompt is empty"⟩, false) :=
  ⟨delegate_empty_prompt_amended.1 c8Ex c8EncC c8EncR "task_1" 3
      ⟨"general", some "", none, [], none, 5, true⟩ ⟨[], []⟩ rfl,
   delegate_empty_prompt_amended.2 c8Ex2 c8Validate ⟨"general", "", [], none⟩
      rfl (by simp) (Or.inl rfl)⟩

/-- `takeWhile` over a satisfying prefix stops at the first failing
element. -/
theorem takeWhile_all_append (p : Char → Bool) (xs : List Char) (y : Char)
    (ys : List Char) (hall : ∀ a ∈ xs, p a = true) (hy : p y = false) :
    ((xs ++ y :: ys).takeWhile p) = xs := by
  induction xs with
  | nil => simp [List.takeWhile, hy]
  | cons a l ih =>
    have ha := hall a (List.mem_cons_self a l)
    simp only [List.cons_append, List.takeWhile_cons, ha, if_true]
    rw [ih fun b hb => hall b (List.mem_cons_of_mem a hb)]

/-- `dropWhile` over a satisfying prefix drops exactly that prefix. -/
theorem dropWhile_all_append (p : Char → Bool) (xs : List Char) (y : Char)
    (ys : List Char) (hall : ∀ a ∈ xs, p a = true) (hy : p y = false) :
    ((xs ++ y :: ys).dropWhile p) = y :: ys := by
  induction xs with
  | nil => simp [List.dropWhile, hy]
  | cons a l ih =>
    have ha := hall a (List.mem_cons_self a l)
    simp only [List.cons_append, List.dropWhile_cons, ha, if_true]
    exact ih fun b hb => hall b (List.mem_cons_of_mem a hb)

/-- A satisfying prefix is transparent to `dropWhile`. -/
theorem dropWhile_prefix_all (p : Char → Bool) (s l : List Char)
    (hs : ∀ a ∈ s, p a = true) : ((s ++ l).dropWhile p) = l.dropWhile p := by
  induction s with
  | nil => simp
  | cons a t ih =>
    have ha := hs a (List.mem_cons_self a t)
    simp only [List.cons_append, List.dropWhile_cons, ha, if_true]
    exact ih fun b hb => hs b (List.mem_cons_of_mem a hb)

/-- `dropWhile` on an all-satisfying list gives `[]`. -/
theorem dropWhile_all_nil (p : Char → Bool) (l : List Char)
    (h : ∀ a ∈ l, p a = true) : l.dropWhile p = [] := by
  have := dropWhile_prefix_all p l [] h
  simpa using this

/-- `dropWhile` keeps a list whose elements all fail the predicate. -/
theorem dropWhile_all_false (p : Char → Bool) (l : List Char)
    (h : ∀ a ∈ l, p a = false) : l.dropWhile p = l := by
  cases l with
  | nil => rfl
  | cons a t => simp [List.dropWhile_cons, h a (List.mem_cons_self a t)]

/-- Leading whitespace is transparent to `strip()`. -/
theorem pyStrip_left_pad (s c : List Char) (hs : ∀ a ∈ s, pySpace a = true) :
    pyStrip (s ++ c) = pyStrip c := by
  unfold pyStrip
  rw [dropWhile_prefix_all pySpace s c hs]

/-- Trailing whitespace is transparent to `strip()`. -/
theorem pyStrip_right_pad (c t : List Char) (ht : ∀ a ∈ t, pySpace a = true) :
    pyStrip (c ++ t) = pyStrip c := by
  unfold pyStrip
  rw [List.dropWhile_append]
  by_cases hc : (c.dropWhile pySpace).isEmpty = true
  · rw [if_pos hc]
    rw [dropWhile_all_nil pySpace t ht]
    have : c.dropWhile pySpace = [] := by
      cases h : c.dropWhile pySpace
      · rfl
      · rw [h] at hc; simp at hc
    rw [this]
  · rw [if_neg hc]
    rw [List.reverse_append]
    rw [dropWhile_prefix_all pySpace t.reverse (c.dropWhile pySpace).reverse
      fun a ha => ht a (List.mem_reverse.mp ha)]

/-- `strip()` of a section body padded with the delimiting newlines. -/
theorem pyStrip_pad (c : List Char) :
    pyStrip ('\n' :: (c ++ ['\n'])) = pyStrip c := by
  have h1 : ('\n' :: (c ++ ['\n'])) = ['\n'] ++ (c ++ ['\n']) := by simp
  rw [h1, pyStrip_left_pad ['\n'] _ (by intro a ha; simp at ha; simp [ha, pySpace]),
    pyStrip_right_pad c ['\n'] (by intro a ha; simp at ha; simp [ha, pySpace])]

/-- `strip()` of a space-free list is the identity. -/
theorem pyStrip_nospace (l : List Char) (h : ∀ a ∈ l, pySpace a = false) :
    pyStrip l = l := by
  unfold pyStrip
  rw [dropWhile_all_false pySpace l h,
    dropWhile_all_false pySpace l.reverse fun a ha => h a (List.mem_reverse.mp ha)]
  simp

/-- The pattern-1 matcher succeeds on a well-formed `--- f ---` marker and
captures exactly the filename. -/
theorem matchMarker1_marker (f rest : List Char) (hne : f ≠ [])
    (hall : ∀ c ∈ f, pySpace c = false ∧ c ≠ '-') (hg : groupOk f = true) :
    matchMarker1 (marker f ++ rest) = some (f, rest) := by
  have e1 : marker f ++ rest =
      '-' :: '-' :: '-' :: (' ' :: (f ++ ([' ', '-', '-', '-'] ++ rest))) := by
    simp [marker]
  rw [e1]
  unfold matchMarker1
  rw [if_pos (by simp)]
  dsimp only
  have e2 : (('-' :: '-' :: '-' :: (' ' :: (f ++ ([' ', '-', '-', '-'] ++ rest)))).drop 3) =
      ' ' :: (f ++ ([' ', '-', '-', '-'] ++ rest)) := by simp
  rw [e2]
  have e3 : ((' ' :: (f ++ ([' ', '-', '-', '-'] ++ rest))).dropWhile pySpace) =
      f ++ (' ' :: ('-' :: '-' :: '-' :: rest)) := by
    rw [List.dropWhile_cons]
    rw [if_pos (by simp [pySpace])]
    obtain ⟨a, f', rfl⟩ : ∃ a f', f = a :: f' := by
      cases f with
      | nil => exact absurd rfl hne
      | cons a f' => exact ⟨a, f', rfl⟩
    rw [List.cons_append, List.dropWhile_cons,
      if_neg (by simp [(hall a (List.mem_cons_self a f')).1])]
    simp
  rw [e3]
  have e4 : ((f ++ (' ' :: ('-' :: '-' :: '-' :: rest))).takeWhile
      fun c => !pySpace c && c != '-') = f := by
    apply takeWhile_all_append
    · intro a ha
      obtain ⟨h1, h2⟩ := hall a ha
      simp [h1, h2]
    · simp [pySpace]
  rw [e4]
  rw [if_neg (by
    obtain ⟨a, f', rfl⟩ : ∃ a f', f = a :: f' := by
      cases f with
      | nil => exact absurd rfl hne
      | cons a f' => exact ⟨a, f', rfl⟩
    simp [hg])]
  have e5 : ((f ++ (' ' :: ('-' :: '-' :: '-' :: rest))).drop f.length) =
      ' ' :: ('-' :: '-' :: '-' :: rest) := List.drop_left f _
  rw [e5]
  have e6 : ((' ' :: ('-' :: '-' :: '-' :: rest)).dropWhile pySpace) =
      '-' :: '-' :: '-' :: rest := by
    rw [List.dropWhile_cons, if_pos (by simp [pySpace]),
      List.dropWhile_cons, if_neg (by simp [pySpace])]
  rw [e6]
  rw [if_pos (by simp)]
  simp

/-- The scanner on the empty list emits the final piece. -/
theorem scan_nil (m : List Char → Option (List Char × List Char))
    (fuel : Nat) (acc : List Char) : splitScanGo m fuel acc [] = [acc.reverse] := by
  cases fuel <;> rfl

/-- The scanner fires a match at the head, emitting the accumulated piece
and the captured group. -/
theorem scan_cons_match (m : List Char → Option (List Char × List Char))
    (fuel : Nat) (acc : List Char) (c : Char) (cs g rest : List Char)
    (h : m (c :: cs) = some (g, rest)) (hf : 1 ≤ fuel) :
    splitScanGo m fuel acc (c :: cs) =
      acc.reverse :: g :: splitScanGo m (fuel - 1) [] rest := by
  obtain ⟨k, rfl⟩ : ∃ k, fuel = k + 1 := ⟨fuel - 1, by omega⟩
  simp [splitScanGo, h]

/-- Pattern 1 cannot match at a position that does not start with `-`. -/
theorem m1_head_none (c : Char) (t : List Char) (hc : c ≠ '-') :
    matchMarker1 (c :: t) = none := by
  unfold matchMarker1
  rw [if_neg]
  intro h
  rw [List.take_succ_cons] at h
  exact hc (List.cons.inj h).1

/-- The scanner walks over hyphen-free text accumulating it. -/
theorem scan_skip (xs : List Char) :
    (∀ c ∈ xs, c ≠ '-') → ∀ (fuel : Nat) (acc rest : List Char),
      xs.length + rest.length ≤ fuel →
      splitScanGo matchMarker1 fuel acc (xs ++ rest) =
        splitScanGo matchMarker1 (fuel - xs.length) (xs.reverse ++ acc) rest := by
  induction xs with
  | nil =>
    intro _ fuel acc rest _
    simp
  | cons x xs ih =>
    intro hall fuel acc rest hb
    obtain ⟨k, rfl⟩ : ∃ k, fuel = k + 1 := by
      refine ⟨fuel - 1, ?_⟩
      simp only [List.length_cons] at hb
      omega
    have hx : matchMarker1 (x :: (xs ++ rest)) = none :=
      m1_head_none _ _ (hall x (List.mem_cons_self _ _))
    rw [List.cons_append]
    show splitScanGo matchMarker1 (k + 1) acc (x :: (xs ++ rest)) = _
    simp only [splitScanGo, hx]
    rw [ih (fun b hb => hall b (List.mem_cons_of_mem x hb)) k (x :: acc) rest
      (by simp only [List.length_cons] at hb; omega)]
    have harith : k + 1 - (x :: xs).length = k - xs.length := by
      simp only [List.length_cons]
      omega
    rw [harith]
    simp

/-- The scanner on a final hyphen-free tail emits it as the last piece. -/
theorem scan_tail (xs : List Char) (hall : ∀ c ∈ xs, c ≠ '-')
    (fuel : Nat) (acc : List Char) (hb : xs.length ≤ fuel) :
    splitScanGo matchMarker1 fuel acc xs = [acc.reverse ++ xs] := by
  have h0 := scan_skip xs hall fuel acc [] (by simpa using hb)
  rw [List.append_nil] at h0
  rw [h0, scan_nil]
  simp

/-- `re.split` of a well-formed two-section output: an empty prefix, the
two filenames, their newline-delimited bodies. -/
theorem pySplit_textOf (f1 c1 f2 c2 : List Char)
    (h1ne : f1 ≠ []) (h1all : ∀ c ∈ f1, pySpace c = false ∧ c ≠ '-')
    (h1g : groupOk f1 = true)
    (h2ne : f2 ≠ []) (h2all : ∀ c ∈ f2, pySpace c = false ∧ c ≠ '-')
    (h2g : groupOk f2 = true)
    (hc1 : ∀ c ∈ c1, c ≠ '-') (hc2 : ∀ c ∈ c2, c ≠ '-') :
    pySplit matchMarker1 (textOf f1 c1 f2 c2) =
      [[], f1, '\n' :: (c1 ++ ['\n']), f2, '\n' :: c2] := by
  have hm1 : matchMarker1 (marker f1 ++
      ('\n' :: (c1 ++ ('\n' :: (marker f2 ++ ('\n' :: c2)))))) =
      some (f1, '\n' :: (c1 ++ ('\n' :: (marker f2 ++ ('\n' :: c2))))) :=
    matchMarker1_marker f1 _ h1ne h1all h1g
  have hm2 : matchMarker1 (marker f2 ++ ('\n' :: c2)) =
      some (f2, '\n' :: c2) := matchMarker1_marker f2 _ h2ne h2all h2g
  have econs1 : marker f1 ++ ('\n' :: (c1 ++ ('\n' :: (marker f2 ++ ('\n' :: c2))))) =
      '-' :: ('-' :: '-' :: ' ' :: (f1 ++ [' ', '-', '-', '-']) ++
        ('\n' :: (c1 ++ ('\n' :: (marker f2 ++ ('\n' :: c2)))))) := by
    simp [marker]
  have econs2 : marker f2 ++ ('\n' :: c2) =
      '-' :: ('-' :: '-' :: ' ' :: (f2 ++ [' ', '-', '-', '-']) ++ ('\n' :: c2)) := by
    simp [marker]
  unfold pySplit
  set n := (textOf f1 c1 f2 c2).length with hn
  have hTlen : n = f1.length + f2.length + c1.length + c2.length + 19 := by
    rw [hn]
    simp [textOf, marker]
    omega
  clear_value n
  show splitScanGo matchMarker1 n [] (textOf f1 c1 f2 c2) = _
  rw [show textOf f1 c1 f2 c2 =
      '-' :: ('-' :: '-' :: ' ' :: (f1 ++ [' ', '-', '-', '-']) ++
        ('\n' :: (c1 ++ ('\n' :: (marker f2 ++ ('\n' :: c2)))))) from by
    rw [textOf]; exact econs1]
  rw [scan_cons_match _ _ _ _ _ _ _ (econs1 ▸ hm1) (by omega)]
  have esp1 : ('\n' :: (c1 ++ ('\n' :: (marker f2 ++ ('\n' :: c2))))) =
      ('\n' :: (c1 ++ ['\n'])) ++ (marker f2 ++ ('\n' :: c2)) := by
    simp
  rw [esp1]
  rw [scan_skip ('\n' :: (c1 ++ ['\n']))
    (by
      intro c hc
      rcases List.mem_cons.mp hc with rfl | hc
      · decide
      · rcases List.mem_append.mp hc with hc | hc
        · exact hc1 c hc
        · obtain rfl := List.mem_singleton.mp hc
          decide)
    _ _ _
    (by
      simp only [List.length_cons, List.length_append, List.length_nil, marker]
      omega)]
  rw [econs2]
  rw [scan_cons_match _ _ _ _ _ _ _ (econs2 ▸ hm2)
    (by
      simp only [List.length_cons, List.length_append, List.length_nil]
      omega)]
  rw [scan_tail ('\n' :: c2)
    (by
      intro c hc
      rcases List.mem_cons.mp hc with rfl | hc
      · decide
      · exact hc2 c hc)
    _ _
    (by
      simp only [List.length_cons, List.length_append, List.length_nil, marker]
      omega)]
  simp

/-- A two-section worker output whose prompt and content mention no code
keyword: the type inference does not see `code_generation`. -/
def c9Text : String := "--- a.html ---\nhello\n--- b.css ---\nworld"

/-- C9 counterexample: the claim says that for any output text containing
`--- a.html --- … --- b.css --- …` sections the extractor writes `a.html`
and `b.css` plus a `README.md`.  With an empty prompt and no code keyword
in the output, `_infer_task_type` infers `text_generation` (it does not
recognise HTML tags), so `_save_formatted_result` never runs the
multi-file extraction: it writes the whole output as a single
`t1_deliverable.txt` file, no `a.html`, no `b.css`, no `README.md`. -/
theorem save_deliverable_claim_false :
    (save_task_deliverable c9Text "t1" "").1 = "text_generation" ∧
    (save_task_deliverable c9Text "t1" "").2.files = [] ∧
    (save_task_deliverable c9Text "t1" "").2.readme = none ∧
    (save_task_deliverable c9Text "t1" "").2.singleFile = some "t1_deliverable.txt" := by
  decide

/-- C9 (amended): provided the inferred task type is `code_generation`
(for instance because the prompt mentions code), the extractor on an
output of the form `--- f1 ---\n c1 \n--- f2 ---\n c2` — filenames
non-empty, hyphen- and whitespace-free with a word-character extension,
section bodies hyphen-free — writes exactly the files `f1` and `f2`,
whose contents are the section bodies after `strip()` and fenced-code
marker removal, plus a `README.md` listing the two generated files. -/
theorem save_deliverable_amended (f1 c1 f2 c2 : List Char) (tid task_content : String)
    (h1ne : f1 ≠ []) (h1all : ∀ c ∈ f1, pySpace c = false ∧ c ≠ '-')
    (h1g : groupOk f1 = true)
    (h2ne : f2 ≠ []) (h2all : ∀ c ∈ f2, pySpace c = false ∧ c ≠ '-')
    (h2g : groupOk f2 = true)
    (hc1 : ∀ c ∈ c1, c ≠ '-') (hc2 : ∀ c ∈ c2, c ≠ '-')
    (hty : infer_task_type task_content (String.mk (textOf f1 c1 f2 c2)) =
      "code_generation") :
    (save_task_deliverable (String.mk (textOf f1 c1 f2 c2)) tid task_content).2.files =
      [(String.mk f1, String.mk (stripFenceClose (stripFenceOpen (pyStrip c1)))),
       (String.mk f2, String.mk (stripFenceClose (stripFenceOpen (pyStrip c2))))] ∧
    (save_task_deliverable (String.mk (textOf f1 c1 f2 c2)) tid task_content).2.readme =
      some [String.mk f1, String.mk f2] := by
  have hp2 : pyStrip ('\n' :: c2) = pyStrip c2 := by
    have := pyStrip_left_pad ['\n'] c2 (by
      intro a ha
      obtain rfl := List.mem_singleton.mp ha
      decide)
    simpa using this
  have hext : extractFiles matchMarker1 (String.mk (textOf f1 c1 f2 c2)).data =
      [(String.mk f1, String.mk (stripFenceClose (stripFenceOpen (pyStrip c1)))),
       (String.mk f2, String.mk (stripFenceClose (stripFenceOpen (pyStrip c2))))] := by
    show extractFiles matchMarker1 (textOf f1 c1 f2 c2) = _
    unfold extractFiles
    rw [pySplit_textOf f1 c1 f2 c2 h1ne h1all h1g h2ne h2all h2g hc1 hc2]
    dsimp only
    rw [if_neg (by simp)]
    simp only [List.tail_cons, pairUp, List.map_cons, List.map_nil, processSection]
    rw [pyStrip_nospace f1 fun a ha => (h1all a ha).1,
      pyStrip_nospace f2 fun a ha => (h2all a ha).1,
      pyStrip_pad c1, hp2]
  unfold save_task_deliverable
  dsimp only
  rw [hty]
  unfold save_formatted_result
  rw [if_pos rfl]
  dsimp only
  rw [hext]
  rw [if_pos (by simp)]
  dsimp only
  rw [if_pos (by simp)]
  simp

/-- Witness for C9's amended theorem on the concrete two-section output
with a code-mentioning prompt. -/
theorem save_deliverable_amended_witness :
    (save_task_deliverable
        (String.mk (textOf "a.html".data "hello".data "b.css".data "world".data))
        "t1" "write code").2.files = [("a.html", "hello"), ("b.css", "world")] ∧
    (save_task_deliverable
        (String.mk (textOf "a.html".data "hello".data "b.css".data "world".data))
        "t1" "write code").2.readme = some ["a.html", "b.css"] := by
  have h := save_deliverable_amended "a.html".data "hello".data "b.css".data
    "world".data "t1" "write code" (by decide) (by decide) (by decide) (by decide)
    (by decide) (by decide) (by decide) (by decide) (by decide)
  exact ⟨h.1.trans (by decide), h.2.trans (by decide)⟩

end Koubou
